import Mathlib

/-!
Shallow embedding of the btern balanced-ternary toolchain
(btern_core/src/lib.rs, bemu/src/cpu.rs) and proofs about the
properties its specification states.

Conventions of the embedding:
* a Rust `[Trit; 27]` word and `[Trit; 9]` tryte are Lean `List Trit`
  values of length 27 resp. 9;
* Rust `i64` is Lean `Int`; Rust `%` and `/` on `i64` truncate toward
  zero, so they are embedded as `Int.tmod` and `Int.tdiv`;
* a Rust function that can panic (an `unwrap` on an `Err`, an
  `unreachable!()`, an out-of-bounds array index) is embedded as a
  function into `Option`/`Except` where the panic is `none` resp. a
  `crash` value, kept distinct from a returned `Err` (a `fault`);
* `u8` program bytes are `Nat` values below 256, with the `as i8` cast
  written out explicitly.
-/

set_option maxRecDepth 8000

namespace BTern

/-- Balanced ternary digit, from the Rust enum `Trit` in btern_core. -/
inductive Trit
  | N
  | Z
  | P
deriving DecidableEq

/-- Signed integer value of a trit, from `Trit::to_i8`. -/
def Trit.to_i8 : Trit → Int
  | .N => -1
  | .Z => 0
  | .P => 1

/-- Conversion of an integer to a trit, from `Trit::from_i8`; the Rust
`Err` case is `none`. -/
def Trit.from_i8 (v : Int) : Option Trit :=
  if v = -1 then some .N else if v = 0 then some .Z else if v = 1 then some .P else none

/-- Trit negation, from `impl Neg for Trit`. -/
def negTrit : Trit → Trit
  | .N => .P
  | .Z => .Z
  | .P => .N

/-- Three-input balanced ternary full adder, from `add_trits`.  The Rust
code computes the carry by a range match on `sum_val ∈ [-3, 3]`
(`-3..=-2 => -1`, `-1..=1 => 0`, `2..=3 => 1`); the `if` chain below is
that match.  The two `Trit::from_i8(..).unwrap()` calls cannot fail (the
values are always in {-1, 0, 1}), so `getD Trit.Z` never supplies its
default. -/
def add_trits (a b carry_in : Trit) : Trit × Trit :=
  let sum_val := a.to_i8 + b.to_i8 + carry_in.to_i8
  let carry_out_val : Int := if sum_val ≤ -2 then -1 else if sum_val ≤ 1 then 0 else 1
  let sum_trit_val := sum_val - 3 * carry_out_val
  ((Trit.from_i8 sum_trit_val).getD Trit.Z, (Trit.from_i8 carry_out_val).getD Trit.Z)

/-- Ripple-carry loop of `add_words`: index 0 (the LSB) first, threading
the carry; the final carry out is discarded, exactly as in the Rust
loop `for i in 0..27`. -/
def rippleAdd : List Trit → List Trit → Trit → List Trit
  | a :: as', b :: bs', c =>
    let p := add_trits a b c
    p.1 :: rippleAdd as' bs' p.2
  | _, _, _ => []

/-- Word addition, from `add_words`: ripple carry starting with carry Z. -/
def add_words (a b : List Trit) : List Trit :=
  rippleAdd a b Trit.Z

/-- Trit-wise word negation, from `neg_word`. -/
def neg_word (w : List Trit) : List Trit :=
  w.map negTrit

/-- Value of an LSB-first trit slice, from `trits_to_i64`.  The Rust
loop accumulates `Σ tritᵢ · 3ⁱ`; the Horner recursion below computes
the same sum. -/
def trits_to_i64 : List Trit → Int
  | [] => 0
  | t :: ts => t.to_i8 + 3 * trits_to_i64 ts

/-- Word to integer, from `word_to_i64`. -/
def word_to_i64 (w : List Trit) : Int :=
  trits_to_i64 w

/-- Shared loop body of `i64_to_word` and `i64_to_trits_fixed_size`:
`while value != 0 && i < size`, writing balanced digits LSB first into
an array initialised with `Trit::Z`.  Rust `%`/`/` truncate toward
zero, hence `Int.tmod`/`Int.tdiv`.  The Rust match on the remainder has
arms for `0`, `1`, `2` only and `_ => unreachable!()`; for a negative
`value` the remainder is negative, so that panic is reachable and is
embedded as `none`. -/
def balTritsLoop : Int → Nat → Option (List Trit)
  | _, 0 => some []
  | v, n + 1 =>
    if v = 0 then some (List.replicate (n + 1) Trit.Z)
    else
      let rem := Int.tmod v 3
      if rem = 0 then (balTritsLoop (Int.tdiv v 3) n).map (fun ts => Trit.Z :: ts)
      else if rem = 1 then (balTritsLoop (Int.tdiv (v - 1) 3) n).map (fun ts => Trit.P :: ts)
      else if rem = 2 then (balTritsLoop (Int.tdiv (v + 1) 3) n).map (fun ts => Trit.N :: ts)
      else none

/-- Integer to 27-trit word, from `i64_to_word`; `none` is the
`unreachable!()` panic on negative input. -/
def i64_to_word (v : Int) : Option (List Trit) :=
  balTritsLoop v 27

/-- Integer to a fixed number of trits, from `i64_to_trits_fixed_size`. -/
def i64_to_trits_fixed_size (v : Int) (size : Nat) : Option (List Trit) :=
  balTritsLoop v size

/-- Instruction opcodes, from the Rust enum `Opcode`. -/
inductive Opcode
  | NOP
  | ADD
  | ADDI
  | SUB
  | SUBI
  | LDW
  | STW
  | JMP
  | CALL
  | RET
  | BRZ
  | HALT
deriving DecidableEq

/-- Discriminant of an opcode, from the explicit values of the Rust
enum (`NOP = 0`, …, `BRZ = 10`, `HALT = 63`). -/
def opcodeVal : Opcode → Int
  | .NOP => 0
  | .ADD => 1
  | .ADDI => 2
  | .SUB => 3
  | .SUBI => 4
  | .LDW => 5
  | .STW => 6
  | .JMP => 7
  | .CALL => 8
  | .RET => 9
  | .BRZ => 10
  | .HALT => 63

/-- Decoded instruction record, from the Rust struct `Instruction`. -/
structure Instruction where
  opcode : Opcode
  rd : Nat
  rs1 : Nat
  rs2 : Nat
  imm : Int
deriving DecidableEq

/-- Instruction encoder, from `encode_instruction`: the 27-trit word is
`imm (12) ++ rs2 (3) ++ rs1 (3) ++ rd (3) ++ opcode (6)`, LSB first.
Any field conversion hitting the `unreachable!()` panic makes the whole
encoding `none`. -/
def encode_instruction (inst : Instruction) : Option (List Trit) :=
  match i64_to_trits_fixed_size inst.imm 12,
      i64_to_trits_fixed_size (inst.rs2 : Int) 3,
      i64_to_trits_fixed_size (inst.rs1 : Int) 3,
      i64_to_trits_fixed_size (inst.rd : Int) 3,
      i64_to_trits_fixed_size (opcodeVal inst.opcode) 6 with
  | some immT, some rs2T, some rs1T, some rdT, some opT =>
    some (immT ++ (rs2T ++ (rs1T ++ (rdT ++ opT))))
  | _, _, _, _, _ => none

/-- Decode failures, from the two `Err` cases of `Cpu::decode`. -/
inductive DecodeErr
  | invalidRegister
  | unknownOpcode
deriving DecidableEq

/-- Opcode lookup, from the Rust `match opcode_val as u8` arms in
`Cpu::decode`. -/
def opcodeOfInt (v : Int) : Option Opcode :=
  if v = 0 then some .NOP
  else if v = 1 then some .ADD
  else if v = 2 then some .ADDI
  else if v = 3 then some .SUB
  else if v = 4 then some .SUBI
  else if v = 5 then some .LDW
  else if v = 6 then some .STW
  else if v = 7 then some .JMP
  else if v = 8 then some .CALL
  else if v = 9 then some .RET
  else if v = 10 then some .BRZ
  else if v = 63 then some .HALT
  else none

/-- Instruction decoder, from `Cpu::decode`.  Field slices follow the
Rust ranges (`[21..27]` opcode, `[18..21]` rd, `[15..18]` rs1,
`[12..15]` rs2, `[0..12]` imm); the register validation runs before the
opcode match; the Rust `opcode_val as u8` cast is the `emod 256`. -/
def decode (w : List Trit) : Except DecodeErr Instruction :=
  let opcode_val := trits_to_i64 ((w.drop 21).take 6)
  let rd_val := trits_to_i64 ((w.drop 18).take 3)
  let rs1_val := trits_to_i64 ((w.drop 15).take 3)
  let rs2_val := trits_to_i64 ((w.drop 12).take 3)
  let imm_val := trits_to_i64 (w.take 12)
  if rd_val < 0 ∨ 26 < rd_val ∨ rs1_val < 0 ∨ 26 < rs1_val ∨ rs2_val < 0 ∨ 26 < rs2_val then
    .error DecodeErr.invalidRegister
  else
    match opcodeOfInt (Int.emod opcode_val 256) with
    | some op =>
      .ok { opcode := op, rd := rd_val.toNat, rs1 := rs1_val.toNat, rs2 := rs2_val.toNat,
            imm := imm_val }
    | none => .error DecodeErr.unknownOpcode

/-- Memory size in trytes, from `MEMORY_TRYTES = 19683`. -/
def MEMORY_TRYTES : Nat := 19683

/-- Recoverable faults (the `Err(String)` returns of bemu), one
constructor per distinct error message. -/
inductive EmuFault
  | malformedProgram
  | invalidTrit
  | programTooLarge
  | invalidRegister
  | unknownOpcode
  | negativePc
  | pcOutOfRange
  | eaNegative
  | eaOutOfRange
deriving DecidableEq

/-- Kinds of Rust panics reachable in the emulator core. -/
inductive CrashKind
  | unreachableTrit
  | indexOOB
deriving DecidableEq

/-- Outcome of a fallible emulator step: a surfaced `Err` (fault) or a
process abort (crash / panic). -/
inductive Err
  | fault (f : EmuFault)
  | crash (k : CrashKind)
deriving DecidableEq

/-- Result type for emulator operations. -/
abbrev Res (α : Type) : Type := Except Err α

/-- CPU state, from the Rust struct `Cpu`: 27 general-purpose register
words, the program counter word, and `MEMORY_TRYTES` trytes of memory.
Registers and memory are total functions from `Nat`; only indices below
27 resp. `MEMORY_TRYTES` are ever consulted, and every Rust array
access is guarded in the operation that performs it. -/
structure Cpu where
  gpr : Nat → List Trit
  pc : List Trit
  memory : Nat → List Trit

/-- Read of `self.gpr[i]`: a Rust index out of bounds is a panic,
embedded as a crash. -/
def getReg (c : Cpu) (i : Nat) : Res (List Trit) :=
  if i < 27 then .ok (c.gpr i) else .error (.crash .indexOOB)

/-- Write of `self.gpr[i] = w`, with the same bounds behaviour. -/
def setGpr (c : Cpu) (i : Nat) (w : List Trit) : Res Cpu :=
  if i < 27 then .ok { c with gpr := fun k => if k = i then w else c.gpr k }
  else .error (.crash .indexOOB)

/-- Byte-to-trit conversion of the loader, from `Cpu::byte_to_trit`:
the byte is reinterpreted as a signed 8-bit value (`byte as i8`) and
must be -1, 0 or 1. -/
def byte_to_trit (b : Nat) : Option Trit :=
  Trit.from_i8 (if b < 128 then (b : Int) else (b : Int) - 256)

/-- Byte-stream loader, from the loop of `Cpu::load_program`: per byte,
first the capacity check on the current tryte index, then the trit
conversion, then the write at (tryte index, trit-in-tryte index). -/
def loadLoop : List Nat → Nat → Nat → (Nat → List Trit) → Res (Nat → List Trit)
  | [], _, _, mem => .ok mem
  | b :: bs, ti, tr, mem =>
    if MEMORY_TRYTES ≤ ti then .error (.fault .programTooLarge)
    else
      match byte_to_trit b with
      | none => .error (.fault .invalidTrit)
      | some t =>
        let mem' := fun k => if k = ti then (mem ti).set tr t else mem k
        if tr + 1 = 9 then loadLoop bs (ti + 1) 0 mem'
        else loadLoop bs ti (tr + 1) mem'

/-- Program loader, from `Cpu::load_program`: the byte count must be a
multiple of 9, then the per-byte loop runs from tryte 0, trit 0. -/
def load_program (program_bytes : List Nat) (mem : Nat → List Trit) : Res (Nat → List Trit) :=
  if program_bytes.length % 9 ≠ 0 then .error (.fault .malformedProgram)
  else loadLoop program_bytes 0 0 mem

/-- Instruction fetch, from `Cpu::fetch`: negative PC and
`pc + 2 ≥ memory len` are faults; the word is the concatenation of the
trytes at `pc`, `pc+1`, `pc+2` (LSB tryte first). -/
def fetch (c : Cpu) : Res (List Trit) :=
  let pc_value := word_to_i64 c.pc
  if pc_value < 0 then .error (.fault .negativePc)
  else
    let pc_address := pc_value.toNat
    if MEMORY_TRYTES ≤ pc_address + 2 then .error (.fault .pcOutOfRange)
    else .ok (c.memory pc_address ++ c.memory (pc_address + 1) ++ c.memory (pc_address + 2))

/-- Sequential PC increment, from `Cpu::next_pc`: integer value of the
PC plus 3, converted back to a word (`none` is the conversion panic on
a negative result). -/
def next_pc (c : Cpu) : Option (List Trit) :=
  i64_to_word (word_to_i64 c.pc + 3)

/-- ADD, from `Cpu::op_add`: a write to R0 is discarded before any
register is read. -/
def op_add (c : Cpu) (rd_idx rs1_idx rs2_idx : Nat) : Res Cpu :=
  if rd_idx = 0 then .ok c
  else
    match getReg c rs1_idx with
    | .error e => .error e
    | .ok rs1 =>
      match getReg c rs2_idx with
      | .error e => .error e
      | .ok rs2 => setGpr c rd_idx (add_words rs1 rs2)

/-- ADDI, from `Cpu::op_addi`: `i64_to_word` of the immediate can
panic. -/
def op_addi (c : Cpu) (rd_idx rs1_idx : Nat) (imm : Int) : Res Cpu :=
  if rd_idx = 0 then .ok c
  else
    match getReg c rs1_idx with
    | .error e => .error e
    | .ok rs1 =>
      match i64_to_word imm with
      | none => .error (.crash .unreachableTrit)
      | some imm_word => setGpr c rd_idx (add_words rs1 imm_word)

/-- SUB, from `Cpu::op_sub`. -/
def op_sub (c : Cpu) (rd_idx rs1_idx rs2_idx : Nat) : Res Cpu :=
  if rd_idx = 0 then .ok c
  else
    match getReg c rs1_idx with
    | .error e => .error e
    | .ok rs1 =>
      match getReg c rs2_idx with
      | .error e => .error e
      | .ok rs2 => setGpr c rd_idx (add_words rs1 (neg_word rs2))

/-- SUBI, from `Cpu::op_subi`. -/
def op_subi (c : Cpu) (rd_idx rs1_idx : Nat) (imm : Int) : Res Cpu :=
  if rd_idx = 0 then .ok c
  else
    match getReg c rs1_idx with
    | .error e => .error e
    | .ok rs1 =>
      match i64_to_word imm with
      | none => .error (.crash .unreachableTrit)
      | some imm_word => setGpr c rd_idx (add_words rs1 (neg_word imm_word))

/-- Effective address calculation, from
`Cpu::calculate_effective_address`: `EA = Rs1 + imm`, negative and
out-of-range addresses are faults. -/
def calculate_effective_address (c : Cpu) (rs1_idx : Nat) (imm : Int) : Res Nat :=
  match getReg c rs1_idx with
  | .error e => .error e
  | .ok rs1 =>
    let effective_address_value := word_to_i64 rs1 + imm
    if effective_address_value < 0 then .error (.fault .eaNegative)
    else
      let ea := effective_address_value.toNat
      if MEMORY_TRYTES ≤ ea + 2 then .error (.fault .eaOutOfRange)
      else .ok ea

/-- LDW, from `Cpu::op_ldw`: the R0 discard happens before the address
is even computed. -/
def op_ldw (c : Cpu) (rd_idx rs1_idx : Nat) (offset : Int) : Res Cpu :=
  if rd_idx = 0 then .ok c
  else
    match calculate_effective_address c rs1_idx offset with
    | .error e => .error e
    | .ok ea => setGpr c rd_idx (c.memory ea ++ c.memory (ea + 1) ++ c.memory (ea + 2))

/-- STW, from `Cpu::op_stw`: the word in Rs2 is split over the three
trytes at the effective address. -/
def op_stw (c : Cpu) (rs1_idx : Nat) (offset : Int) (rs2_idx : Nat) : Res Cpu :=
  match calculate_effective_address c rs1_idx offset with
  | .error e => .error e
  | .ok ea =>
    match getReg c rs2_idx with
    | .error e => .error e
    | .ok data_word =>
      .ok { c with
        memory := fun k =>
          if k = ea then data_word.take 9
          else if k = ea + 1 then (data_word.drop 9).take 9
          else if k = ea + 2 then (data_word.drop 18).take 9
          else c.memory k }

/-- JMP, from `Cpu::op_jmp`: `PC ← i64_to_word(PC + offset)`; the
conversion panics when the target is negative. -/
def op_jmp (c : Cpu) (offset : Int) : Res Cpu :=
  match i64_to_word (word_to_i64 c.pc + offset) with
  | none => .error (.crash .unreachableTrit)
  | some w => .ok { c with pc := w }

/-- CALL, from `Cpu::op_call`: stores `i64_to_word(PC + 3)` in R26
(index 26, always in bounds), then performs the relative jump. -/
def op_call (c : Cpu) (offset : Int) : Res Cpu :=
  match i64_to_word (word_to_i64 c.pc + 3) with
  | none => .error (.crash .unreachableTrit)
  | some ra =>
    op_jmp { c with gpr := fun k => if k = 26 then ra else c.gpr k } offset

/-- RET, from `Cpu::op_ret`: `PC ← R26`. -/
def op_ret (c : Cpu) : Res Cpu :=
  .ok { c with pc := c.gpr 26 }

/-- BRZ, from `Cpu::op_brz`: branch taken when every trit of Rs1 is Z. -/
def op_brz (c : Cpu) (rs1_idx : Nat) (offset : Int) : Res Cpu :=
  match getReg c rs1_idx with
  | .error e => .error e
  | .ok rs1 =>
    if rs1.all (fun t => t == Trit.Z) then op_jmp c offset
    else
      match next_pc c with
      | none => .error (.crash .unreachableTrit)
      | some p => .ok { c with pc := p }

/-- Single-instruction dispatch, from `Cpu::execute`: returns the new
state and the `running` flag (`false` only for HALT).  Sequential
instructions run their operation and then assign `pc = next_pc()`. -/
def execute (c : Cpu) (inst : Instruction) : Res (Cpu × Bool) :=
  match inst.opcode with
  | .NOP =>
    match next_pc c with
    | none => .error (.crash .unreachableTrit)
    | some p => .ok ({ c with pc := p }, true)
  | .HALT => .ok (c, false)
  | .ADD =>
    match op_add c inst.rd inst.rs1 inst.rs2 with
    | .error e => .error e
    | .ok c' =>
      match next_pc c' with
      | none => .error (.crash .unreachableTrit)
      | some p => .ok ({ c' with pc := p }, true)
  | .ADDI =>
    match op_addi c inst.rd inst.rs1 inst.imm with
    | .error e => .error e
    | .ok c' =>
      match next_pc c' with
      | none => .error (.crash .unreachableTrit)
      | some p => .ok ({ c' with pc := p }, true)
  | .SUB =>
    match op_sub c inst.rd inst.rs1 inst.rs2 with
    | .error e => .error e
    | .ok c' =>
      match next_pc c' with
      | none => .error (.crash .unreachableTrit)
      | some p => .ok ({ c' with pc := p }, true)
  | .SUBI =>
    match op_subi c inst.rd inst.rs1 inst.imm with
    | .error e => .error e
    | .ok c' =>
      match next_pc c' with
      | none => .error (.crash .unreachableTrit)
      | some p => .ok ({ c' with pc := p }, true)
  | .LDW =>
    match op_ldw c inst.rd inst.rs1 inst.imm with
    | .error e => .error e
    | .ok c' =>
      match next_pc c' with
      | none => .error (.crash .unreachableTrit)
      | some p => .ok ({ c' with pc := p }, true)
  | .STW =>
    match op_stw c inst.rs1 inst.imm inst.rs2 with
    | .error e => .error e
    | .ok c' =>
      match next_pc c' with
      | none => .error (.crash .unreachableTrit)
      | some p => .ok ({ c' with pc := p }, true)
  | .JMP =>
    match op_jmp c inst.imm with
    | .error e => .error e
    | .ok c' => .ok (c', true)
  | .CALL =>
    match op_call c inst.imm with
    | .error e => .error e
    | .ok c' => .ok (c', true)
  | .RET =>
    match op_ret c with
    | .error e => .error e
    | .ok c' => .ok (c', true)
  | .BRZ =>
    match op_brz c inst.rs1 inst.imm with
    | .error e => .error e
    | .ok c' => .ok (c', true)

/-- Outcome of `Cpu::run`: regular termination, an error, or the fuel
bound of the embedding being reached. -/
inductive RunResult
  | halted (c : Cpu)
  | failed (e : Err)
  | outOfFuel (c : Cpu)

/-- Fetch-decode-execute loop, from `Cpu::run`, with explicit fuel.
After every executed instruction the Rust loop additionally forces
`running = false` when the opcode was NOP (the "manually halt if we hit
NOP" guard), so NOP terminates the loop exactly like HALT does. -/
def run : Nat → Cpu → RunResult
  | 0, c => .outOfFuel c
  | fuel + 1, c =>
    match fetch c with
    | .error e => .failed e
    | .ok instruction_word =>
      match decode instruction_word with
      | .error .invalidRegister => .failed (.fault .invalidRegister)
      | .error .unknownOpcode => .failed (.fault .unknownOpcode)
      | .ok instruction =>
        match execute c instruction with
        | .error e => .failed e
        | .ok (c', running) =>
          if instruction.opcode = Opcode.NOP then .halted c'
          else if running then run fuel c' else .halted c'

/-- All-Z word. -/
def zeroWord : List Trit := List.replicate 27 Trit.Z

/-- All-Z tryte. -/
def zeroTryte : List Trit := List.replicate 9 Trit.Z

/-- Freshly constructed CPU, from `Cpu::new`: all registers, the PC and
all memory trytes are all-Z. -/
def zeroCpu : Cpu :=
  { gpr := fun _ => zeroWord, pc := zeroWord, memory := fun _ => zeroTryte }

/-- Three trytes of one encoded instruction word, in memory order. -/
def wordTrytes (w : List Trit) : List (List Trit) :=
  [w.take 9, (w.drop 9).take 9, (w.drop 18).take 9]

/-- Memory holding the given trytes from address 0, all-Z elsewhere. -/
def memOfTrytes (ts : List (List Trit)) : Nat → List Trit :=
  fun k => ts.getD k zeroTryte

/-- Three-instruction probe program `NOP; ADDI R1, R0, 5; HALT`,
assembled with the real encoder. -/
def nopProbeProg : List (List Trit) :=
  wordTrytes ((encode_instruction ⟨.NOP, 0, 0, 0, 0⟩).getD zeroWord) ++
  wordTrytes ((encode_instruction ⟨.ADDI, 1, 0, 0, 5⟩).getD zeroWord) ++
  wordTrytes ((encode_instruction ⟨.HALT, 0, 0, 0, 0⟩).getD zeroWord)

/-- Fresh CPU whose memory holds `nopProbeProg`. -/
def nopProbeCpu : Cpu :=
  { gpr := fun _ => zeroWord, pc := zeroWord, memory := memOfTrytes nopProbeProg }

/-- PC word with value 3, the PC after one sequential instruction. -/
def pcAfterOne : List Trit := Trit.Z :: Trit.P :: List.replicate 25 Trit.Z

/-- CPU state after executing one NOP from the fresh state. -/
def cpuAfterNop : Cpu :=
  { gpr := fun _ => zeroWord, pc := pcAfterOne, memory := fun _ => zeroTryte }

/-- NOP instruction record. -/
def nopInst : Instruction := ⟨.NOP, 0, 0, 0, 0⟩

/-! ## Claim theorems -/

/-- Claim C1 (code bug): the round trip `word_to_i64 ∘ i64_to_word`
cannot even start on the negative half of the claimed range, because
`i64_to_word` panics there: in Rust `(-1) % 3 == -1`, which falls into
the `_ => unreachable!()` arm of the remainder match.  The embedding
returns `none` exactly at that panic. -/
theorem c1_i64_to_word_panics_on_negative : i64_to_word (-1) = none := rfl

/-- Claim C2 (code bug): executing ADDI with the in-range negative
immediate -1 does not set Rd and advance PC as the claim states; it
panics inside `i64_to_word` (the `unreachable!()` arm, `none` in the
embedding), surfacing as a crash. -/
theorem c2_addi_negative_imm_crashes :
    execute zeroCpu ⟨.ADDI, 1, 0, 0, -1⟩ = .error (.crash .unreachableTrit) := rfl

/-- Claim C4 (code bug): `execute` itself treats NOP as "continue"
(second conjunct), but the `run` loop then forces a halt after any NOP,
so for the program `NOP; ADDI R1, R0, 5; HALT` the machine stops after
the NOP and R1 is still all-Z — under the claim the ADDI would have run
and R1 would be 5. -/
theorem c4_run_halts_on_nop :
    (match run 10 nopProbeCpu with
      | .halted c => some (c.gpr 1)
      | _ => none) = some zeroWord
    ∧ (execute nopProbeCpu nopInst).map Prod.snd = .ok true :=
  ⟨rfl, rfl⟩

/-- Claim C5 (code bug): a relative jump (JMP, CALL, or taken BRZ with
Rs1 all-Z) whose target `PC + imm` is negative does not surface a
PC-range fault to the host; `op_jmp` panics inside `i64_to_word`
(Rust's `unreachable!()`), i.e. the process crashes. -/
theorem c5_negative_jump_crashes :
    execute zeroCpu ⟨.JMP, 0, 0, 0, -3⟩ = .error (.crash .unreachableTrit)
    ∧ execute zeroCpu ⟨.CALL, 0, 0, 0, -3⟩ = .error (.crash .unreachableTrit)
    ∧ execute zeroCpu ⟨.BRZ, 0, 0, 0, -3⟩ = .error (.crash .unreachableTrit) :=
  ⟨rfl, rfl, rfl⟩

/-- Adding a trit to its negation with any carry gives sum = carry and
carry-out Z. -/
theorem add_trits_self_neg (t c : Trit) : add_trits t (negTrit t) c = (c, Trit.Z) := by
  cases t <;> cases c <;> rfl

/-- Ripple-adding a trit list to its trit-wise negation with initial
carry Z yields all-Z trits. -/
theorem rippleAdd_self_neg (l : List Trit) :
    rippleAdd l (neg_word l) Trit.Z = List.replicate l.length Trit.Z := by
  induction l with
  | nil => rfl
  | cons t ts ih =>
    show rippleAdd (t :: ts) (negTrit t :: ts.map negTrit) Trit.Z = _
    rw [rippleAdd, add_trits_self_neg]
    simpa [List.replicate_succ] using ih

/-- Value of an all-Z trit list. -/
theorem trits_to_i64_replicate_zero (n : Nat) :
    trits_to_i64 (List.replicate n Trit.Z) = 0 := by
  induction n with
  | zero => rfl
  | succ n ih => simp [List.replicate_succ, trits_to_i64, ih, Trit.to_i8]

/-- Powers of three are odd. -/
theorem pow3_emod_two (n : Nat) : (3 : Int) ^ n % 2 = 1 := by
  induction n with
  | zero => rfl
  | succ n ih => rw [pow_succ]; omega

/-- On a non-negative value the balanced-digit loop never reaches the
`unreachable!()` arm and produces exactly the requested number of
trits. -/
theorem balTritsLoop_nonneg (n : Nat) :
    ∀ v : Int, 0 ≤ v → ∃ l, balTritsLoop v n = some l ∧ l.length = n := by
  induction n with
  | zero => intro v hv; exact ⟨[], rfl, rfl⟩
  | succ n ih =>
    intro v hv
    by_cases h0 : v = 0
    · subst h0
      exact ⟨List.replicate (n + 1) Trit.Z, by simp [balTritsLoop], by simp⟩
    · have hm : Int.tmod v 3 = v % 3 := Int.tmod_eq_emod hv (by norm_num)
      have h3 : v % 3 = 0 ∨ v % 3 = 1 ∨ v % 3 = 2 := by omega
      rcases h3 with h | h | h
      · have hd : Int.tdiv v 3 = v / 3 := Int.tdiv_eq_ediv hv (by norm_num)
        obtain ⟨l, hl, hlen⟩ := ih (v / 3) (by omega)
        refine ⟨Trit.Z :: l, ?_, by simp [hlen]⟩
        simp [balTritsLoop, h0, hm, h, hd, hl]
      · have hd : Int.tdiv (v - 1) 3 = (v - 1) / 3 := Int.tdiv_eq_ediv (by omega) (by norm_num)
        obtain ⟨l, hl, hlen⟩ := ih ((v - 1) / 3) (by omega)
        refine ⟨Trit.P :: l, ?_, by simp [hlen]⟩
        simp [balTritsLoop, h0, hm, h, hd, hl]
      · have hd : Int.tdiv (v + 1) 3 = (v + 1) / 3 := Int.tdiv_eq_ediv (by omega) (by norm_num)
        obtain ⟨l, hl, hlen⟩ := ih ((v + 1) / 3) (by omega)
        refine ⟨Trit.N :: l, ?_, by simp [hlen]⟩
        simp [balTritsLoop, h0, hm, h, hd, hl]

/-- On a non-negative value within the balanced range of `n` trits, the
balanced-digit loop succeeds and its output evaluates back to the
input. -/
theorem balTritsLoop_roundtrip (n : Nat) :
    ∀ v : Int, 0 ≤ v → 2 * v ≤ 3 ^ n - 1 →
      ∃ l, balTritsLoop v n = some l ∧ l.length = n ∧ trits_to_i64 l = v := by
  induction n with
  | zero =>
    intro v hv hb
    have : v = 0 := by omega
    subst this
    exact ⟨[], rfl, rfl, rfl⟩
  | succ n ih =>
    intro v hv hb
    by_cases h0 : v = 0
    · subst h0
      exact ⟨List.replicate (n + 1) Trit.Z, by simp [balTritsLoop], by simp,
        trits_to_i64_replicate_zero _⟩
    · have hm : Int.tmod v 3 = v % 3 := Int.tmod_eq_emod hv (by norm_num)
      have hP : (0 : Int) < 3 ^ n := by positivity
      have hodd : (3 : Int) ^ n % 2 = 1 := pow3_emod_two n
      have hb' : 2 * v ≤ 3 * 3 ^ n - 1 := by
        have : (3 : Int) ^ (n + 1) = 3 ^ n * 3 := pow_succ 3 n
        omega
      have h3 : v % 3 = 0 ∨ v % 3 = 1 ∨ v % 3 = 2 := by omega
      rcases h3 with h | h | h
      · have hd : Int.tdiv v 3 = v / 3 := Int.tdiv_eq_ediv hv (by norm_num)
        obtain ⟨l, hl, hlen, hval⟩ := ih (v / 3) (by omega) (by omega)
        refine ⟨Trit.Z :: l, ?_, by simp [hlen], ?_⟩
        · simp [balTritsLoop, h0, hm, h, hd, hl]
        · simp only [trits_to_i64, Trit.to_i8, hval]
          omega
      · have hd : Int.tdiv (v - 1) 3 = (v - 1) / 3 := Int.tdiv_eq_ediv (by omega) (by norm_num)
        obtain ⟨l, hl, hlen, hval⟩ := ih ((v - 1) / 3) (by omega) (by omega)
        refine ⟨Trit.P :: l, ?_, by simp [hlen], ?_⟩
        · simp [balTritsLoop, h0, hm, h, hd, hl]
        · simp only [trits_to_i64, Trit.to_i8, hval]
          omega
      · have hd : Int.tdiv (v + 1) 3 = (v + 1) / 3 := Int.tdiv_eq_ediv (by omega) (by norm_num)
        obtain ⟨l, hl, hlen, hval⟩ := ih ((v + 1) / 3) (by omega) (by omega)
        refine ⟨Trit.N :: l, ?_, by simp [hlen], ?_⟩
        · simp [balTritsLoop, h0, hm, h, hd, hl]
        · simp only [trits_to_i64, Trit.to_i8, hval]
          omega

/-- Claim C9 (confirmed): for every 27-trit word `a`,
`add_words a (neg_word a)` is the all-Z word. -/
theorem c9_add_neg_is_zero (a : List Trit) (h : a.length = 27) :
    add_words a (neg_word a) = zeroWord := by
  unfold add_words zeroWord
  rw [← h]
  exact rippleAdd_self_neg a

/-- Witness for C9 at the all-Z word. -/
theorem c9_add_neg_is_zero_witness :
    zeroWord.length = 27 ∧ add_words zeroWord (neg_word zeroWord) = zeroWord :=
  ⟨by decide, c9_add_neg_is_zero zeroWord (by decide)⟩

/-- Claim C7 (confirmed): whenever `PC + 3` and `PC + imm` are both
non-negative, CALL stores the word for `PC + 3` into R26, sets the PC
to the word for `PC + imm`, and touches no other register and no
memory. -/
theorem c7_call_semantics (c : Cpu) (offset : Int)
    (h3 : 0 ≤ word_to_i64 c.pc + 3) (ho : 0 ≤ word_to_i64 c.pc + offset) :
    ∃ c', op_call c offset = .ok c'
      ∧ i64_to_word (word_to_i64 c.pc + 3) = some (c'.gpr 26)
      ∧ i64_to_word (word_to_i64 c.pc + offset) = some c'.pc
      ∧ (∀ k, k ≠ 26 → c'.gpr k = c.gpr k)
      ∧ c'.memory = c.memory := by
  obtain ⟨ra, hra, _⟩ := balTritsLoop_nonneg 27 (word_to_i64 c.pc + 3) h3
  obtain ⟨pw, hpw, _⟩ := balTritsLoop_nonneg 27 (word_to_i64 c.pc + offset) ho
  have hra' : i64_to_word (word_to_i64 c.pc + 3) = some ra := hra
  have hpw' : i64_to_word (word_to_i64 c.pc + offset) = some pw := hpw
  refine ⟨{ c with gpr := fun k => if k = 26 then ra else c.gpr k, pc := pw },
    ?_, ?_, ?_, ?_, rfl⟩
  · unfold op_call op_jmp
    rw [hra']
    simp only []
    rw [show ({ c with gpr := fun k => if k = 26 then ra else c.gpr k } : Cpu).pc = c.pc from rfl]
    rw [hpw']
  · simp [hra']
  · simp [hpw']
  · intro k hk
    simp [hk]

/-- Witness for C7 on the fresh CPU with offset 0. -/
theorem c7_call_semantics_witness :
    ∃ c', op_call zeroCpu 0 = .ok c'
      ∧ i64_to_word (word_to_i64 zeroCpu.pc + 3) = some (c'.gpr 26)
      ∧ i64_to_word (word_to_i64 zeroCpu.pc + 0) = some c'.pc
      ∧ (∀ k, k ≠ 26 → c'.gpr k = zeroCpu.gpr k)
      ∧ c'.memory = zeroCpu.memory :=
  c7_call_semantics zeroCpu 0 (by decide) (by decide)

/-- Opcode discriminants are non-negative. -/
theorem opcodeVal_nonneg (op : Opcode) : 0 ≤ opcodeVal op := by
  cases op <;> norm_num [opcodeVal]

/-- Opcode discriminants are at most 63. -/
theorem opcodeVal_le (op : Opcode) : opcodeVal op ≤ 63 := by
  cases op <;> norm_num [opcodeVal]

/-- Decoding an opcode discriminant recovers the opcode. -/
theorem opcodeOfInt_opcodeVal (op : Opcode) : opcodeOfInt (opcodeVal op) = some op := by
  cases op <;> rfl

/-- Claim C3 counterexample: the instruction `NOP rd=14 rs1=0 rs2=0
imm=0` has valid fields in the claim's sense (register indices in
[0, 26], immediate in range), yet decoding its encoding does not
succeed: 14 does not fit in the 3 balanced trits of the rd field, the
encoder silently truncates it to -13, and the decoder then rejects the
word with the invalid-register error. -/
theorem c3_roundtrip_counterexample :
    (encode_instruction ⟨.NOP, 14, 0, 0, 0⟩).map decode
      = some (.error DecodeErr.invalidRegister) := rfl

/-- Claim C3 (corrected): for every instruction whose register indices
are in [0, 13] (the non-negative values a 3-trit balanced field can
hold) and whose immediate is in [0, 265720] (the encoder panics on
negative immediates, see C1/C2), encoding succeeds and decoding the
encoded word recovers the instruction exactly. -/
theorem c3_encode_decode_roundtrip (inst : Instruction)
    (hrd : inst.rd ≤ 13) (hrs1 : inst.rs1 ≤ 13) (hrs2 : inst.rs2 ≤ 13)
    (him0 : 0 ≤ inst.imm) (him1 : inst.imm ≤ 265720) :
    ∃ w, encode_instruction inst = some w ∧ decode w = .ok inst := by
  obtain ⟨op, rd, rs1, rs2, imm⟩ := inst
  simp only [] at hrd hrs1 hrs2 him0 him1
  obtain ⟨immT, hi, hilen, hival⟩ := balTritsLoop_roundtrip 12 imm him0 (by norm_num; omega)
  obtain ⟨rs2T, h2, h2len, h2val⟩ :=
    balTritsLoop_roundtrip 3 (rs2 : Int) (by positivity) (by push_cast; omega)
  obtain ⟨rs1T, h1, h1len, h1val⟩ :=
    balTritsLoop_roundtrip 3 (rs1 : Int) (by positivity) (by push_cast; omega)
  obtain ⟨rdT, hd, hdlen, hdval⟩ :=
    balTritsLoop_roundtrip 3 (rd : Int) (by positivity) (by push_cast; omega)
  obtain ⟨opT, hop, hoplen, hopval⟩ :=
    balTritsLoop_roundtrip 6 (opcodeVal op) (opcodeVal_nonneg op)
      (by have := opcodeVal_le op; norm_num; omega)
  refine ⟨immT ++ (rs2T ++ (rs1T ++ (rdT ++ opT))), ?_, ?_⟩
  · unfold encode_instruction i64_to_trits_fixed_size
    rw [hi, h2, h1, hd, hop]
  · have d12 : (immT ++ (rs2T ++ (rs1T ++ (rdT ++ opT)))).drop 12 =
        rs2T ++ (rs1T ++ (rdT ++ opT)) :=
      List.drop_left' hilen
    have d15 : (immT ++ (rs2T ++ (rs1T ++ (rdT ++ opT)))).drop 15 = rs1T ++ (rdT ++ opT) := by
      have h : ((immT ++ (rs2T ++ (rs1T ++ (rdT ++ opT)))).drop 12).drop 3 =
          (immT ++ (rs2T ++ (rs1T ++ (rdT ++ opT)))).drop 15 := by
        rw [List.drop_drop]
      rw [← h, d12, List.drop_left' h2len]
    have d18 : (immT ++ (rs2T ++ (rs1T ++ (rdT ++ opT)))).drop 18 = rdT ++ opT := by
      have h : ((immT ++ (rs2T ++ (rs1T ++ (rdT ++ opT)))).drop 15).drop 3 =
          (immT ++ (rs2T ++ (rs1T ++ (rdT ++ opT)))).drop 18 := by
        rw [List.drop_drop]
      rw [← h, d15, List.drop_left' h1len]
    have d21 : (immT ++ (rs2T ++ (rs1T ++ (rdT ++ opT)))).drop 21 = opT := by
      have h : ((immT ++ (rs2T ++ (rs1T ++ (rdT ++ opT)))).drop 18).drop 3 =
          (immT ++ (rs2T ++ (rs1T ++ (rdT ++ opT)))).drop 21 := by
        rw [List.drop_drop]
      rw [← h, d18, List.drop_left' hdlen]
    have t12 : (immT ++ (rs2T ++ (rs1T ++ (rdT ++ opT)))).take 12 = immT :=
      List.take_left' hilen
    have t2 : (rs2T ++ (rs1T ++ (rdT ++ opT))).take 3 = rs2T := List.take_left' h2len
    have t1 : (rs1T ++ (rdT ++ opT)).take 3 = rs1T := List.take_left' h1len
    have td : (rdT ++ opT).take 3 = rdT := List.take_left' hdlen
    have tp : opT.take 6 = opT := List.take_of_length_le (le_of_eq hoplen)
    have hemod : Int.emod (opcodeVal op) 256 = opcodeVal op :=
      Int.emod_eq_of_lt (opcodeVal_nonneg op)
        (lt_of_le_of_lt (opcodeVal_le op) (by norm_num))
    simp only [decode, d12, d15, d18, d21, t12, t2, t1, td, tp,
      hival, h2val, h1val, hdval, hopval, hemod, opcodeOfInt_opcodeVal]
    rw [if_neg]
    · simp
    · push_neg
      refine ⟨by positivity, by omega, by positivity, by omega, by positivity, by omega⟩

/-- Witness for the corrected C3 at `ADDI R1, R0, 5`. -/
theorem c3_encode_decode_roundtrip_witness :
    ∃ w, encode_instruction ⟨.ADDI, 1, 0, 0, 5⟩ = some w
      ∧ decode w = .ok ⟨.ADDI, 1, 0, 0, 5⟩ :=
  c3_encode_decode_roundtrip ⟨.ADDI, 1, 0, 0, 5⟩ (by decide) (by decide) (by decide)
    (by decide) (by decide)


/-- ADD preserves the R0 word (the write is gated on `rd ≠ 0`). -/
theorem op_add_gpr0 {c c' : Cpu} {rd rs1 rs2 : Nat}
    (h : op_add c rd rs1 rs2 = .ok c') : c'.gpr 0 = c.gpr 0 := by
  unfold op_add at h
  split at h
  · injection h with h; subst h; rfl
  · rename_i hrd
    split at h
    · simp at h
    · split at h
      · simp at h
      · unfold setGpr at h
        split at h
        · injection h with h; subst h
          have h0 : ¬((0 : Nat) = rd) := fun hh => hrd hh.symm
          simp [h0]
        · simp at h

/-- ADDI preserves the R0 word. -/
theorem op_addi_gpr0 {c c' : Cpu} {rd rs1 : Nat} {imm : Int}
    (h : op_addi c rd rs1 imm = .ok c') : c'.gpr 0 = c.gpr 0 := by
  unfold op_addi at h
  split at h
  · injection h with h; subst h; rfl
  · rename_i hrd
    split at h
    · simp at h
    · split at h
      · simp at h
      · unfold setGpr at h
        split at h
        · injection h with h; subst h
          have h0 : ¬((0 : Nat) = rd) := fun hh => hrd hh.symm
          simp [h0]
        · simp at h

/-- SUB preserves the R0 word. -/
theorem op_sub_gpr0 {c c' : Cpu} {rd rs1 rs2 : Nat}
    (h : op_sub c rd rs1 rs2 = .ok c') : c'.gpr 0 = c.gpr 0 := by
  unfold op_sub at h
  split at h
  · injection h with h; subst h; rfl
  · rename_i hrd
    split at h
    · simp at h
    · split at h
      · simp at h
      · unfold setGpr at h
        split at h
        · injection h with h; subst h
          have h0 : ¬((0 : Nat) = rd) := fun hh => hrd hh.symm
          simp [h0]
        · simp at h

/-- SUBI preserves the R0 word. -/
theorem op_subi_gpr0 {c c' : Cpu} {rd rs1 : Nat} {imm : Int}
    (h : op_subi c rd rs1 imm = .ok c') : c'.gpr 0 = c.gpr 0 := by
  unfold op_subi at h
  split at h
  · injection h with h; subst h; rfl
  · rename_i hrd
    split at h
    · simp at h
    · split at h
      · simp at h
      · unfold setGpr at h
        split at h
        · injection h with h; subst h
          have h0 : ¬((0 : Nat) = rd) := fun hh => hrd hh.symm
          simp [h0]
        · simp at h

/-- LDW preserves the R0 word. -/
theorem op_ldw_gpr0 {c c' : Cpu} {rd rs1 : Nat} {offset : Int}
    (h : op_ldw c rd rs1 offset = .ok c') : c'.gpr 0 = c.gpr 0 := by
  unfold op_ldw at h
  split at h
  · injection h with h; subst h; rfl
  · rename_i hrd
    split at h
    · simp at h
    · unfold setGpr at h
      split at h
      · injection h with h; subst h
        have h0 : ¬((0 : Nat) = rd) := fun hh => hrd hh.symm
        simp [h0]
      · simp at h

/-- STW leaves the whole register file unchanged. -/
theorem op_stw_gpr {c c' : Cpu} {rs1 rs2 : Nat} {offset : Int}
    (h : op_stw c rs1 offset rs2 = .ok c') : c'.gpr = c.gpr := by
  unfold op_stw at h
  split at h
  · simp at h
  · split at h
    · simp at h
    · injection h with h; subst h; rfl

/-- JMP leaves the whole register file unchanged. -/
theorem op_jmp_gpr {c c' : Cpu} {offset : Int}
    (h : op_jmp c offset = .ok c') : c'.gpr = c.gpr := by
  unfold op_jmp at h
  split at h
  · simp at h
  · injection h with h; subst h; rfl

/-- CALL writes only R26, so R0 is unchanged. -/
theorem op_call_gpr0 {c c' : Cpu} {offset : Int}
    (h : op_call c offset = .ok c') : c'.gpr 0 = c.gpr 0 := by
  unfold op_call at h
  split at h
  · simp at h
  · have hg := op_jmp_gpr h
    rw [hg]
    simp

/-- RET leaves the whole register file unchanged. -/
theorem op_ret_gpr {c c' : Cpu}
    (h : op_ret c = .ok c') : c'.gpr = c.gpr := by
  unfold op_ret at h
  injection h with h; subst h; rfl

/-- BRZ leaves the whole register file unchanged. -/
theorem op_brz_gpr {c c' : Cpu} {rs1 : Nat} {offset : Int}
    (h : op_brz c rs1 offset = .ok c') : c'.gpr = c.gpr := by
  unfold op_brz at h
  split at h
  · simp at h
  · split at h
    · exact op_jmp_gpr h
    · split at h
      · simp at h
      · injection h with h; subst h; rfl

/-- Claim C6 (confirmed): after executing any single instruction that
completes from any CPU state in which R0 is all-Z, R0 still reads as
the all-Z word; every write whose destination register index is 0 is
discarded at the write site. -/
theorem c6_r0_invariant (c : Cpu) (inst : Instruction) (c' : Cpu) (b : Bool)
    (h : execute c inst = .ok (c', b)) (h0 : c.gpr 0 = zeroWord) :
    c'.gpr 0 = zeroWord := by
  rw [← h0]
  obtain ⟨op, rd, rs1, rs2, imm⟩ := inst
  cases op <;> simp only [execute] at h
  case NOP =>
    split at h
    · simp at h
    · injection h with h; injection h with ha hb; subst ha; rfl
  case HALT =>
    injection h with h; injection h with ha hb; subst ha; rfl
  case ADD =>
    split at h
    · simp at h
    · rename_i c1 heq
      split at h
      · simp at h
      · injection h with h; injection h with ha hb; subst ha
        show c1.gpr 0 = c.gpr 0
        exact op_add_gpr0 heq
  case ADDI =>
    split at h
    · simp at h
    · rename_i c1 heq
      split at h
      · simp at h
      · injection h with h; injection h with ha hb; subst ha
        show c1.gpr 0 = c.gpr 0
        exact op_addi_gpr0 heq
  case SUB =>
    split at h
    · simp at h
    · rename_i c1 heq
      split at h
      · simp at h
      · injection h with h; injection h with ha hb; subst ha
        show c1.gpr 0 = c.gpr 0
        exact op_sub_gpr0 heq
  case SUBI =>
    split at h
    · simp at h
    · rename_i c1 heq
      split at h
      · simp at h
      · injection h with h; injection h with ha hb; subst ha
        show c1.gpr 0 = c.gpr 0
        exact op_subi_gpr0 heq
  case LDW =>
    split at h
    · simp at h
    · rename_i c1 heq
      split at h
      · simp at h
      · injection h with h; injection h with ha hb; subst ha
        show c1.gpr 0 = c.gpr 0
        exact op_ldw_gpr0 heq
  case STW =>
    split at h
    · simp at h
    · rename_i c1 heq
      split at h
      · simp at h
      · injection h with h; injection h with ha hb; subst ha
        show c1.gpr 0 = c.gpr 0
        rw [op_stw_gpr heq]
  case JMP =>
    split at h
    · simp at h
    · rename_i c1 heq
      injection h with h; injection h with ha hb; subst ha
      rw [op_jmp_gpr heq]
  case CALL =>
    split at h
    · simp at h
    · rename_i c1 heq
      injection h with h; injection h with ha hb; subst ha
      exact op_call_gpr0 heq
  case RET =>
    split at h
    · simp at h
    · rename_i c1 heq
      injection h with h; injection h with ha hb; subst ha
      rw [op_ret_gpr heq]
  case BRZ =>
    split at h
    · simp at h
    · rename_i c1 heq
      injection h with h; injection h with ha hb; subst ha
      rw [op_brz_gpr heq]

/-- Witness for C6: one NOP from the fresh state. -/
theorem c6_r0_invariant_witness : cpuAfterNop.gpr 0 = zeroWord :=
  c6_r0_invariant zeroCpu nopInst cpuAfterNop true rfl rfl


/-- Effective-address calculation never raises the register-index
panic when rs1 is in bounds. -/
theorem calcEA_ne_oob {c : Cpu} {rs1 : Nat} {imm : Int} (h1 : rs1 < 27) :
    calculate_effective_address c rs1 imm ≠ .error (.crash .indexOOB) := by
  unfold calculate_effective_address
  simp only [getReg, if_pos h1]
  split
  · simp
  · split
    · simp
    · simp

/-- ADD with in-bounds register indices never indexes the register
file out of bounds. -/
theorem op_add_ne_oob {c : Cpu} {rd rs1 rs2 : Nat}
    (hd : rd < 27) (h1 : rs1 < 27) (h2 : rs2 < 27) :
    op_add c rd rs1 rs2 ≠ .error (.crash .indexOOB) := by
  unfold op_add
  split
  · simp
  · simp only [getReg, if_pos h1, if_pos h2]
    unfold setGpr
    simp [hd]

/-- ADDI with in-bounds register indices never indexes the register
file out of bounds. -/
theorem op_addi_ne_oob {c : Cpu} {rd rs1 : Nat} {imm : Int}
    (hd : rd < 27) (h1 : rs1 < 27) :
    op_addi c rd rs1 imm ≠ .error (.crash .indexOOB) := by
  unfold op_addi
  split
  · simp
  · simp only [getReg, if_pos h1]
    split
    · simp
    · unfold setGpr
      simp [hd]

/-- SUB with in-bounds register indices never indexes the register
file out of bounds. -/
theorem op_sub_ne_oob {c : Cpu} {rd rs1 rs2 : Nat}
    (hd : rd < 27) (h1 : rs1 < 27) (h2 : rs2 < 27) :
    op_sub c rd rs1 rs2 ≠ .error (.crash .indexOOB) := by
  unfold op_sub
  split
  · simp
  · simp only [getReg, if_pos h1, if_pos h2]
    unfold setGpr
    simp [hd]

/-- SUBI with in-bounds register indices never indexes the register
file out of bounds. -/
theorem op_subi_ne_oob {c : Cpu} {rd rs1 : Nat} {imm : Int}
    (hd : rd < 27) (h1 : rs1 < 27) :
    op_subi c rd rs1 imm ≠ .error (.crash .indexOOB) := by
  unfold op_subi
  split
  · simp
  · simp only [getReg, if_pos h1]
    split
    · simp
    · unfold setGpr
      simp [hd]

/-- LDW with in-bounds register indices never indexes the register
file out of bounds. -/
theorem op_ldw_ne_oob {c : Cpu} {rd rs1 : Nat} {offset : Int}
    (hd : rd < 27) (h1 : rs1 < 27) :
    op_ldw c rd rs1 offset ≠ .error (.crash .indexOOB) := by
  unfold op_ldw
  split
  · simp
  · split
    · rename_i e heq
      intro hcon
      simp at hcon
      exact calcEA_ne_oob h1 (by rw [heq, hcon])
    · unfold setGpr
      simp [hd]

/-- STW with in-bounds register indices never indexes the register
file out of bounds. -/
theorem op_stw_ne_oob {c : Cpu} {rs1 rs2 : Nat} {offset : Int}
    (h1 : rs1 < 27) (h2 : rs2 < 27) :
    op_stw c rs1 offset rs2 ≠ .error (.crash .indexOOB) := by
  unfold op_stw
  split
  · rename_i e heq
    intro hcon
    simp at hcon
    exact calcEA_ne_oob h1 (by rw [heq, hcon])
  · simp only [getReg, if_pos h2]
    simp

/-- JMP touches no register, so it cannot index out of bounds. -/
theorem op_jmp_ne_oob {c : Cpu} {offset : Int} :
    op_jmp c offset ≠ .error (.crash .indexOOB) := by
  unfold op_jmp
  split
  · simp
  · simp

/-- CALL writes only the literal index 26, always in bounds. -/
theorem op_call_ne_oob {c : Cpu} {offset : Int} :
    op_call c offset ≠ .error (.crash .indexOOB) := by
  unfold op_call
  split
  · simp
  · exact op_jmp_ne_oob

/-- RET reads only the literal index 26, always in bounds. -/
theorem op_ret_ne_oob {c : Cpu} : op_ret c ≠ .error (.crash .indexOOB) := by
  simp [op_ret]

/-- BRZ with an in-bounds rs1 never indexes out of bounds. -/
theorem op_brz_ne_oob {c : Cpu} {rs1 : Nat} {offset : Int} (h1 : rs1 < 27) :
    op_brz c rs1 offset ≠ .error (.crash .indexOOB) := by
  unfold op_brz
  simp only [getReg, if_pos h1]
  split
  · exact op_jmp_ne_oob
  · split
    · simp
    · simp

/-- Executing any instruction whose three register fields are below 27
never performs an out-of-bounds register-file access. -/
theorem execute_ne_oob (c : Cpu) (inst : Instruction)
    (hd : inst.rd < 27) (h1 : inst.rs1 < 27) (h2 : inst.rs2 < 27) :
    execute c inst ≠ .error (.crash .indexOOB) := by
  obtain ⟨op, rd, rs1, rs2, imm⟩ := inst
  simp only [] at hd h1 h2
  cases op <;> simp only [execute]
  case NOP =>
    split
    · simp
    · simp
  case HALT => simp
  case ADD =>
    split
    · rename_i e heq
      intro hcon
      simp at hcon
      exact op_add_ne_oob hd h1 h2 (by rw [heq, hcon])
    · split
      · simp
      · simp
  case ADDI =>
    split
    · rename_i e heq
      intro hcon
      simp at hcon
      exact op_addi_ne_oob hd h1 (by rw [heq, hcon])
    · split
      · simp
      · simp
  case SUB =>
    split
    · rename_i e heq
      intro hcon
      simp at hcon
      exact op_sub_ne_oob hd h1 h2 (by rw [heq, hcon])
    · split
      · simp
      · simp
  case SUBI =>
    split
    · rename_i e heq
      intro hcon
      simp at hcon
      exact op_subi_ne_oob hd h1 (by rw [heq, hcon])
    · split
      · simp
      · simp
  case LDW =>
    split
    · rename_i e heq
      intro hcon
      simp at hcon
      exact op_ldw_ne_oob hd h1 (by rw [heq, hcon])
    · split
      · simp
      · simp
  case STW =>
    split
    · rename_i e heq
      intro hcon
      simp at hcon
      exact op_stw_ne_oob h1 h2 (by rw [heq, hcon])
    · split
      · simp
      · simp
  case JMP =>
    split
    · rename_i e heq
      intro hcon
      simp at hcon
      exact op_jmp_ne_oob (by rw [heq, hcon])
    · simp
  case CALL =>
    split
    · rename_i e heq
      intro hcon
      simp at hcon
      exact op_call_ne_oob (by rw [heq, hcon])
    · simp
  case RET =>
    split
    · rename_i e heq
      intro hcon
      simp at hcon
      exact op_ret_ne_oob (by rw [heq, hcon])
    · simp
  case BRZ =>
    split
    · rename_i e heq
      intro hcon
      simp at hcon
      exact op_brz_ne_oob h1 (by rw [heq, hcon])
    · simp

/-- Claim C10 (confirmed): every instruction `decode` returns has rd,
rs1 and rs2 in [0, 26], and consequently executing a decoded
instruction can never fault with an out-of-bounds register-file
index. -/
theorem c10_decoded_registers_in_bounds (w : List Trit) (inst : Instruction)
    (h : decode w = .ok inst) :
    inst.rd < 27 ∧ inst.rs1 < 27 ∧ inst.rs2 < 27
      ∧ ∀ c : Cpu, execute c inst ≠ .error (.crash .indexOOB) := by
  simp only [decode] at h
  split at h
  · simp at h
  · rename_i hcond
    split at h
    · rename_i op hop
      injection h with h
      subst h
      push_neg at hcond
      obtain ⟨hr0, hr1, hr2, hr3, hr4, hr5⟩ := hcond
      refine ⟨by simp; omega, by simp; omega, by simp; omega, ?_⟩
      intro c
      exact execute_ne_oob c _ (by simp; omega) (by simp; omega) (by simp; omega)
    · simp at h

/-- Witness for C10: the all-Z word decodes to NOP with all fields
zero. -/
theorem c10_witness_probe :
    decode zeroWord = .ok nopInst
      ∧ nopInst.rd < 27 ∧ nopInst.rs1 < 27 ∧ nopInst.rs2 < 27
      ∧ execute zeroCpu nopInst ≠ .error (.crash .indexOOB) := by
  have h := c10_decoded_registers_in_bounds zeroWord nopInst rfl
  exact ⟨rfl, h.1, h.2.1, h.2.2.1, h.2.2.2 zeroCpu⟩


/-- Trit denoted by a valid program byte. -/
def byteTritD (b : Nat) : Trit := (byte_to_trit b).getD Trit.Z

/-- Sequential writes of the loader within one tryte: set positions
`tr`, `tr+1`, … with the trits of the given bytes. -/
def setTrits : List Trit → Nat → List Nat → List Trit
  | l, _, [] => l
  | l, tr, b :: bs => setTrits (l.set tr (byteTritD b)) (tr + 1) bs

/-- Writing bytes over positions `tr ..` of a tryte that they exactly
fill replaces everything from `tr` on by the bytes' trits. -/
theorem setTrits_full (c9 : List Nat) :
    ∀ (l : List Trit) (tr : Nat), tr + c9.length = l.length →
      setTrits l tr c9 = l.take tr ++ c9.map byteTritD := by
  induction c9 with
  | nil =>
    intro l tr h
    simp at h
    simp [setTrits, h, List.take_length]
  | cons b rest ih =>
    intro l tr h
    simp at h
    have htr : tr < l.length := by omega
    have hset : (l.set tr (byteTritD b)).take (tr + 1) = l.take tr ++ [byteTritD b] := by
      rw [List.set_eq_take_cons_drop _ htr, List.take_append_eq_append_take]
      have h1 : (l.take tr).length = tr := by simp; omega
      rw [List.take_of_length_le (le_of_eq h1 |>.trans (Nat.le_succ tr)), h1]
      simp
    calc setTrits l tr (b :: rest)
        = setTrits (l.set tr (byteTritD b)) (tr + 1) rest := rfl
      _ = (l.set tr (byteTritD b)).take (tr + 1) ++ rest.map byteTritD := by
          apply ih
          simp
          omega
      _ = l.take tr ++ (byteTritD b :: rest.map byteTritD) := by
          rw [hset]
          simp
      _ = l.take tr ++ (b :: rest).map byteTritD := rfl

/-- One full tryte worth of valid bytes advances the loader by one
tryte index and overwrites exactly that tryte. -/
theorem loadLoop_chunk (c9 : List Nat) :
    ∀ (bs : List Nat) (ti tr : Nat) (mem : Nat → List Trit),
      c9 ≠ [] → tr + c9.length = 9 → ti < MEMORY_TRYTES →
      (∀ b ∈ c9, (byte_to_trit b).isSome) →
      loadLoop (c9 ++ bs) ti tr mem =
        loadLoop bs (ti + 1) 0 (fun k => if k = ti then setTrits (mem ti) tr c9 else mem k) := by
  induction c9 with
  | nil => intro bs ti tr mem hne; cases hne rfl
  | cons b rest ih =>
    intro bs ti tr mem hne hlen hti hv
    obtain ⟨t, ht⟩ := Option.isSome_iff_exists.mp (hv b (List.mem_cons_self b rest))
    have htD : byteTritD b = t := by simp [byteTritD, ht]
    by_cases hrest : rest = []
    · subst hrest
      simp only [List.length_cons, List.length_nil] at hlen
      have htr : tr + 1 = 9 := by omega
      show loadLoop (b :: bs) ti tr mem = _
      rw [loadLoop, if_neg (Nat.not_le.mpr hti)]
      simp only [ht]
      rw [if_pos htr]
      congr 1
      funext k
      by_cases hk : k = ti <;> simp [hk, setTrits, htD]
    · have htr : tr + 1 ≠ 9 := by
        simp only [List.length_cons] at hlen
        have : 0 < rest.length := List.length_pos.mpr hrest
        omega
      show loadLoop (b :: (rest ++ bs)) ti tr mem = _
      rw [loadLoop, if_neg (Nat.not_le.mpr hti)]
      simp only [ht]
      rw [if_neg htr]
      rw [ih bs ti (tr + 1) _ hrest (by simp only [List.length_cons] at hlen; omega) hti
        (fun x hx => hv x (List.mem_cons_of_mem b hx))]
      congr 1
      funext k
      by_cases hk : k = ti
      · simp [hk, setTrits, htD]
      · simp [hk]

/-- Success case of the loader loop: `9 * m` valid bytes starting at
tryte `ti` within capacity load `m` consecutive trytes and leave the
rest of memory untouched. -/
theorem loadLoop_ok (m : Nat) :
    ∀ (bs : List Nat) (ti : Nat) (mem : Nat → List Trit),
      bs.length = 9 * m → (∀ b ∈ bs, (byte_to_trit b).isSome) →
      ti + m ≤ MEMORY_TRYTES → (∀ k, (mem k).length = 9) →
      ∃ mem', loadLoop bs ti 0 mem = .ok mem'
        ∧ (∀ k, k < ti → mem' k = mem k)
        ∧ (∀ k, ti + m ≤ k → mem' k = mem k)
        ∧ (∀ j, j < m → mem' (ti + j) = ((bs.drop (9 * j)).take 9).map byteTritD) := by
  induction m with
  | zero =>
    intro bs ti mem hlen hv hcap hwf
    have hbs : bs = [] := List.length_eq_zero.mp (by omega)
    subst hbs
    exact ⟨mem, rfl, fun _ _ => rfl, fun _ _ => rfl, fun j hj => absurd hj (by omega)⟩
  | succ m ih =>
    intro bs ti mem hlen hv hcap hwf
    have hbs : bs = bs.take 9 ++ bs.drop 9 := (List.take_append_drop 9 bs).symm
    have hc9len : (bs.take 9).length = 9 := by simp; omega
    have hrestlen : (bs.drop 9).length = 9 * m := by simp; omega
    have hc9ne : bs.take 9 ≠ [] := by
      intro hh
      rw [hh] at hc9len
      simp at hc9len
    have hstep := loadLoop_chunk (bs.take 9) (bs.drop 9) ti 0 mem hc9ne
      (by omega) (by omega) (fun x hx => hv x (List.mem_of_mem_take hx))
    have hmem1ti : setTrits (mem ti) 0 (bs.take 9) = (bs.take 9).map byteTritD := by
      rw [setTrits_full (bs.take 9) (mem ti) 0 (by rw [hwf ti]; omega)]
      simp
    have hwf1 : ∀ k,
        ((fun k => if k = ti then setTrits (mem ti) 0 (bs.take 9) else mem k) k).length = 9 := by
      intro k
      by_cases hk : k = ti
      · simp only [hk, if_pos rfl, hmem1ti]
        simp
        omega
      · simp [hk, hwf k]
    obtain ⟨mem', hrun, hlow, hhigh, hmid⟩ := ih (bs.drop 9) (ti + 1)
      (fun k => if k = ti then setTrits (mem ti) 0 (bs.take 9) else mem k)
      hrestlen (fun x hx => hv x (List.mem_of_mem_drop hx)) (by omega) hwf1
    refine ⟨mem', ?_, ?_, ?_, ?_⟩
    · conv_lhs => rw [hbs]
      rw [hstep, hrun]
    · intro k hk
      rw [hlow k (by omega)]
      simp [show k ≠ ti by omega]
    · intro k hk
      rw [hhigh k (by omega)]
      simp [show k ≠ ti by omega]
    · intro j hj
      cases j with
      | zero =>
        have h0 : ti + 0 = ti := rfl
        rw [h0, hlow ti (by omega)]
        simp [hmem1ti]
      | succ j' =>
        have hsh : ti + (j' + 1) = (ti + 1) + j' := by omega
        rw [hsh, hmid j' (by omega)]
        congr 2
        rw [List.drop_drop]
        congr 1
        omega

/-- When some byte is not a valid trit and the stream stays within
capacity, the loader fails with the invalid-trit fault. -/
theorem loadLoop_invalid :
    ∀ (bs : List Nat) (ti tr : Nat) (mem : Nat → List Trit),
      tr < 9 → 9 * ti + tr + bs.length ≤ 9 * MEMORY_TRYTES →
      (∃ b ∈ bs, byte_to_trit b = none) →
      loadLoop bs ti tr mem = .error (.fault .invalidTrit) := by
  intro bs
  induction bs with
  | nil =>
    intro ti tr mem htr hcap hbad
    obtain ⟨b, hb, _⟩ := hbad
    cases hb
  | cons b rest ih =>
    intro ti tr mem htr hcap hbad
    have hti : ti < MEMORY_TRYTES := by
      simp only [List.length_cons] at hcap
      omega
    rw [loadLoop, if_neg (Nat.not_le.mpr hti)]
    cases hb : byte_to_trit b with
    | none => simp [hb]
    | some t =>
      simp only [hb]
      obtain ⟨x, hx, hxbad⟩ := hbad
      rcases List.mem_cons.mp hx with rfl | hx'
      · rw [hb] at hxbad
        cases hxbad
      · by_cases h9 : tr + 1 = 9
        · rw [if_pos h9]
          apply ih (ti + 1) 0 _ (by omega)
          · simp only [List.length_cons] at hcap
            omega
          · exact ⟨x, hx', hxbad⟩
        · rw [if_neg h9]
          apply ih ti (tr + 1) _ (by omega)
          · simp only [List.length_cons] at hcap
            omega
          · exact ⟨x, hx', hxbad⟩

/-- When every byte is valid but the stream overruns the memory
capacity, the loader fails with the program-too-large fault. -/
theorem loadLoop_too_large :
    ∀ (bs : List Nat) (ti tr : Nat) (mem : Nat → List Trit),
      bs ≠ [] → tr < 9 → (∀ b ∈ bs, (byte_to_trit b).isSome) →
      9 * MEMORY_TRYTES < 9 * ti + tr + bs.length →
      loadLoop bs ti tr mem = .error (.fault .programTooLarge) := by
  intro bs
  induction bs with
  | nil => intro ti tr mem hne; cases hne rfl
  | cons b rest ih =>
    intro ti tr mem hne htr hv hcap
    by_cases hti : MEMORY_TRYTES ≤ ti
    · rw [loadLoop, if_pos hti]
    · rw [loadLoop, if_neg hti]
      push_neg at hti
      obtain ⟨t, ht⟩ := Option.isSome_iff_exists.mp (hv b (List.mem_cons_self b rest))
      simp only [ht]
      have hrest : rest ≠ [] := by
        intro hh
        subst hh
        simp only [List.length_cons, List.length_nil] at hcap
        omega
      by_cases h9 : tr + 1 = 9
      · rw [if_pos h9]
        apply ih (ti + 1) 0 _ hrest (by omega)
          (fun x hx => hv x (List.mem_cons_of_mem b hx))
        simp only [List.length_cons] at hcap
        omega
      · rw [if_neg h9]
        apply ih ti (tr + 1) _ hrest (by omega)
          (fun x hx => hv x (List.mem_cons_of_mem b hx))
        simp only [List.length_cons] at hcap
        omega

/-- The loader loop itself never reports the malformed-program fault;
that fault comes only from the length check of `load_program`. -/
theorem loadLoop_ne_malformed :
    ∀ (bs : List Nat) (ti tr : Nat) (mem : Nat → List Trit),
      loadLoop bs ti tr mem ≠ .error (.fault .malformedProgram) := by
  intro bs
  induction bs with
  | nil => intro ti tr mem; simp [loadLoop]
  | cons b rest ih =>
    intro ti tr mem
    rw [loadLoop]
    split
    · simp
    · cases hb : byte_to_trit b with
      | none => simp [hb]
      | some t =>
        simp only [hb]
        split
        · exact ih (ti + 1) 0 _
        · exact ih ti (tr + 1) _


/-- All-Z memory of a freshly constructed CPU. -/
def zeroMem : Nat → List Trit := fun _ => zeroTryte

/-- Claim C8 (confirmed): `load_program` on zero-initialised memory
fails with the malformed-program fault exactly when the byte count is
not a multiple of 9; on a valid in-capacity stream it succeeds, tryte
`k` then holds bytes `9k .. 9k+8` as trits (LSB trit first) and every
tryte past the program is still all-Z; an in-capacity stream with a
byte that is not a trit fails with the invalid-trit fault; and a fully
valid stream longer than `9 * 19683` trits fails with the
program-too-large fault. -/
theorem c8_load_program (bytes : List Nat) :
    (load_program bytes zeroMem = .error (.fault .malformedProgram) ↔ bytes.length % 9 ≠ 0)
    ∧ (bytes.length % 9 = 0 → (∀ b ∈ bytes, (byte_to_trit b).isSome) →
         bytes.length ≤ 9 * MEMORY_TRYTES →
         ∃ mem, load_program bytes zeroMem = .ok mem
           ∧ (∀ k, 9 * (k + 1) ≤ bytes.length →
               mem k = ((bytes.drop (9 * k)).take 9).map byteTritD)
           ∧ (∀ k, bytes.length ≤ 9 * k → mem k = zeroTryte))
    ∧ (bytes.length % 9 = 0 → bytes.length ≤ 9 * MEMORY_TRYTES →
         (∃ b ∈ bytes, byte_to_trit b = none) →
         load_program bytes zeroMem = .error (.fault .invalidTrit))
    ∧ (bytes.length % 9 = 0 → 9 * MEMORY_TRYTES < bytes.length →
         (∀ b ∈ bytes, (byte_to_trit b).isSome) →
         load_program bytes zeroMem = .error (.fault .programTooLarge)) := by
  refine ⟨⟨?_, ?_⟩, ?_, ?_, ?_⟩
  · intro h
    by_contra hmod
    rw [load_program, if_neg (show ¬bytes.length % 9 ≠ 0 by simp [hmod])] at h
    exact loadLoop_ne_malformed bytes 0 0 zeroMem h
  · intro hmod
    rw [load_program, if_pos hmod]
  · intro hmod hv hcap
    obtain ⟨m, hm⟩ : ∃ m, bytes.length = 9 * m := ⟨bytes.length / 9, by omega⟩
    obtain ⟨mem', hrun, hlow, hhigh, hmid⟩ := loadLoop_ok m bytes 0 zeroMem hm hv (by omega)
      (fun k => by simp [zeroMem, zeroTryte])
    refine ⟨mem', ?_, ?_, ?_⟩
    · rw [load_program, if_neg (by simp [hmod])]
      exact hrun
    · intro k hk
      have hkm : k < m := by omega
      have := hmid k hkm
      simpa using this
    · intro k hk
      exact hhigh k (by omega)
  · intro hmod hcap hbad
    rw [load_program, if_neg (by simp [hmod])]
    exact loadLoop_invalid bytes 0 0 zeroMem (by omega) (by omega) hbad
  · intro hmod hcap hv
    rw [load_program, if_neg (by simp [hmod])]
    have hne : bytes ≠ [] := by
      intro hh
      rw [hh] at hcap
      simp at hcap
    exact loadLoop_too_large bytes 0 0 zeroMem hne (by omega) hv (by omega)

/-- Witness for C8: one tryte of 0xFF bytes (all trits N) loads
successfully. -/
theorem c8_load_program_witness :
    ∃ mem, load_program (List.replicate 9 255) zeroMem = .ok mem
      ∧ (∀ k, 9 * (k + 1) ≤ (List.replicate 9 255 : List Nat).length →
          mem k = (((List.replicate 9 255 : List Nat).drop (9 * k)).take 9).map byteTritD)
      ∧ (∀ k, (List.replicate 9 255 : List Nat).length ≤ 9 * k → mem k = zeroTryte) :=
  ((c8_load_program (List.replicate 9 255)).2.1) (by decide) (by decide) (by decide)

end BTern
